import Mathlib

/-!
Verification development for the circom-poseidon constant-table transpiler
(`gen_constants.py` and `gen_rs.py`): a shallow embedding of the two scripts
and proofs about the extraction, reshape and render pipeline.
-/

/-- Failure modes of the embedded pipeline. `keyError`, `indexError`,
`valueError` and `evalError` model the uncaught Python exceptions
(`KeyError` from dict subscripts, `IndexError` from list subscripts,
`ValueError` from `int(...)`, and evaluation failures of `eval`);
`unsupportedSize t` models the terminal `panic!("bad t value: ...", t)`
branch of the generated Rust accessors. -/
inductive Err where
  | keyError : Err
  | indexError : Err
  | valueError : Err
  | evalError : Err
  | unsupportedSize : Nat → Err
deriving Repr, DecidableEq

/-- Python list subscript `l[i]` (for a non-negative index): the element when
in bounds, an `IndexError` otherwise. -/
def pyIndex {α : Type} (l : List α) (i : Nat) : Except Err α :=
  match l.get? i with
  | some a => Except.ok a
  | none => Except.error Err.indexError

/-- Python dict subscript `d[k]`: the value when the key is present, a
`KeyError` otherwise. -/
def pyDictGet {α : Type} (d : Nat → Option α) (k : Nat) : Except Err α :=
  match d k with
  | some v => Except.ok v
  | none => Except.error Err.keyError

/-- `FULL_ROUNDS = 8` from `gen_rs.py`. -/
def FULL_ROUNDS : Nat := 8

/-- `PARTIAL_ROUNDS` from `gen_rs.py`. -/
def PARTIAL_ROUNDS : List Nat :=
  [56, 57, 56, 60, 60, 63, 64, 63, 60, 66, 60, 65, 70, 60, 64, 68]

/-- `MAX_INPUTS = 16` from `gen_rs.py`. -/
def MAX_INPUTS : Nat := 16

/-- A run of a loop body that may raise, collecting one result per element;
the first raised exception aborts the whole run (embeds a Python `for` loop
building a list where any statement may raise). -/
def mapE {β : Type} (f : Nat → Except Err β) : List Nat → Except Err (List β)
  | [] => Except.ok []
  | a :: l =>
    match f a with
    | Except.error e => Except.error e
    | Except.ok b =>
      match mapE f l with
      | Except.error e => Except.error e
      | Except.ok bs => Except.ok (b :: bs)

/-- A run of a state-threading loop body that may raise; the first raised
exception aborts the run (embeds a Python `for` loop updating a variable). -/
def foldE {σ α : Type} (f : σ → α → Except Err σ) (init : σ) : List α → Except Err σ
  | [] => Except.ok init
  | a :: l =>
    match f init a with
    | Except.error e => Except.error e
    | Except.ok s => foldE f s l

/-- The character for a decimal digit `d < 10`. -/
def digitChar (d : Nat) : Char := Char.ofNat (48 + d)

/-- The decimal digits of a natural number, most significant first: the
embedding of Python's exact integer-to-decimal-text conversion used by the
f-string `{key}` in `gen_rs.py` (Python ints are arbitrary precision, so the
conversion is exact). -/
def decDigits (n : Nat) : List Char :=
  if n < 10 then [digitChar n]
  else decDigits (n / 10) ++ [digitChar (n % 10)]
decreasing_by exact Nat.div_lt_self (by omega) (by omega)

/-- String form of `decDigits`. -/
def decStr (n : Nat) : String := String.mk (decDigits n)

/-- The numeric value of a digit string (horner evaluation base 10). -/
def digitsVal (cs : List Char) : Nat :=
  cs.foldl (fun a c => 10 * a + (c.toNat - 48)) 0

/-- Parse a decimal digit string into its exact value: the embedding of the
downstream decimal re-parser (`F::from_str` on the emitted literal). Fails on
the empty string or any non-digit character. -/
def parseDec (cs : List Char) : Option Nat :=
  if cs.isEmpty then none
  else if cs.all Char.isDigit then some (digitsVal cs) else none

/-- Python `int(s)` on a regex capture of `[0-9]+`: parses the digit string,
raising `ValueError` on anything else. -/
def pyInt (cs : List Char) : Except Err Nat :=
  match parseDec cs with
  | some n => Except.ok n
  | none => Except.error Err.valueError

/-- The row-major reshape of a flat constants sequence `cs` for selector `t`:
`FULL_ROUNDS + PARTIAL_ROUNDS[t-2]` rows of `t` columns, row `r` column `i`
holding `cs[r*t + i]` (stating the value produced by `gen_ark`'s nested
loops at `gen_rs.py` lines 40-44). -/
def arkShape (cs : List Nat) (t : Nat) : List (List Nat) :=
  (List.range (FULL_ROUNDS + PARTIAL_ROUNDS.getD (t - 2) 0)).map
    (fun rnd => (List.range t).map (fun i => cs.getD (rnd * t + i) 0))

/-- Value of the branch the generator emits for selector `t` in `get_ark`
(`gen_rs.py` lines 39-46): the dict access `C[t]`, the `PARTIAL_ROUNDS[t-2]`
lookup, and the nested loops indexing `C[t][rnd * t + i]`. -/
def arkBranch (C : Nat → Option (List Nat)) (t : Nat) : Except Err (List (List Nat)) :=
  match pyDictGet C t with
  | Except.error e => Except.error e
  | Except.ok cs =>
    match pyIndex PARTIAL_ROUNDS (t - 2) with
    | Except.error e => Except.error e
    | Except.ok pr =>
      mapE (fun rnd => mapE (fun i => pyIndex cs (rnd * t + i)) (List.range t))
        (List.range (FULL_ROUNDS + pr))

/-- Value of the branch the generator emits for selector `t` in `get_mds`
(`gen_rs.py` lines 67-73): the rows of `M[t]`, copied as they are. -/
def mdsBranch (M : Nat → Option (List (List Nat))) (t : Nat) : Except Err (List (List Nat)) :=
  match pyDictGet M t with
  | Except.error e => Except.error e
  | Except.ok rows => Except.ok rows

/-- The `if t == u { ... } else if ... else { panic!("bad t value: ...", t) }`
cascade both generated accessors consist of (`gen_rs.py` lines 35-52 and
63-79): the first branch whose selector equals `t` is taken, and the
unconditional terminal branch raises `UnsupportedSize` carrying `t`. -/
def cascade (branch : Nat → Except Err (List (List Nat))) :
    List Nat → Nat → Except Err (List (List Nat))
  | [], t => Except.error (Err.unsupportedSize t)
  | u :: rest, t => if t = u then branch u else cascade branch rest t

/-- Denotation of the generated `get_ark` accessor: the cascade over
selectors `range(2, 18)` with the round-constant branches. -/
def get_ark (C : Nat → Option (List Nat)) (t : Nat) : Except Err (List (List Nat)) :=
  cascade (arkBranch C) (List.range' 2 16) t

/-- Denotation of the generated `get_mds` accessor: the cascade over
selectors `range(2, 18)` with the MDS branches. -/
def get_mds (M : Nat → Option (List (List Nat))) (t : Nat) : Except Err (List (List Nat)) :=
  cascade (mdsBranch M) (List.range' 2 16) t

/-! helper lemmas about the embedded primitives -/

lemma pyIndex_ok_of_lt {α : Type} (l : List α) (d : α) (i : Nat) (h : i < l.length) :
    pyIndex l i = Except.ok (l.getD i d) := by
  unfold pyIndex
  have h1 : l.get? i = some (l.get ⟨i, h⟩) := List.get?_eq_get h
  rw [h1, List.getD_eq_getD_get?, h1]
  rfl

lemma pyIndex_cases (l : List Nat) (i : Nat) :
    pyIndex l i = Except.ok (l.getD i 0) ∨ pyIndex l i = Except.error Err.indexError := by
  unfold pyIndex
  cases h : l.get? i with
  | none => right; rfl
  | some a => left; rw [List.getD_eq_getD_get?, h]; rfl

lemma pyIndex_ok_bound {α : Type} (l : List α) (i : Nat) (b : α)
    (h : pyIndex l i = Except.ok b) : i < l.length := by
  unfold pyIndex at h
  cases hg : l.get? i with
  | none => rw [hg] at h; exact absurd h (by simp)
  | some a =>
    by_contra hle
    have : l.get? i = none := List.get?_eq_none.mpr (by omega)
    rw [this] at hg; exact absurd hg (by simp)

lemma mapE_ok_of {β : Type} (f : Nat → Except Err β) (g : Nat → β) :
    ∀ l : List Nat, (∀ a ∈ l, f a = Except.ok (g a)) → mapE f l = Except.ok (l.map g)
  | [], _ => rfl
  | a :: l, h => by
    unfold mapE
    rw [h a (by simp), mapE_ok_of f g l (fun b hb => h b (by simp [hb]))]
    rfl

lemma mapE_cases {β : Type} (f : Nat → Except Err β) (g : Nat → β) (E : Err) :
    ∀ l : List Nat, (∀ a ∈ l, f a = Except.ok (g a) ∨ f a = Except.error E) →
      mapE f l = Except.ok (l.map g) ∨ mapE f l = Except.error E
  | [], _ => Or.inl rfl
  | a :: l, h => by
    unfold mapE
    rcases h a (by simp) with ha | ha
    · rw [ha]
      rcases mapE_cases f g E l (fun b hb => h b (by simp [hb])) with hl | hl
      · rw [hl]; left; rfl
      · rw [hl]; right; rfl
    · rw [ha]; right; rfl

lemma mapE_ok_forall {β : Type} (f : Nat → Except Err β) :
    ∀ (l : List Nat) (bs : List β), mapE f l = Except.ok bs → ∀ a ∈ l, ∃ b, f a = Except.ok b := by
  intro l
  induction l with
  | nil => intro bs _ a ha; exact absurd ha (by simp)
  | cons x l ih =>
    intro bs h a ha
    unfold mapE at h
    cases hx : f x with
    | error e => rw [hx] at h; exact absurd h (by simp)
    | ok b =>
      rw [hx] at h
      cases hl : mapE f l with
      | error e => rw [hl] at h; exact absurd h (by simp)
      | ok bs' =>
        rcases List.mem_cons.mp ha with rfl | ha'
        · exact ⟨b, hx⟩
        · exact ih bs' hl a ha'

lemma cascade_mem (branch : Nat → Except Err (List (List Nat))) :
    ∀ (l : List Nat) (t : Nat), t ∈ l → cascade branch l t = branch t
  | u :: rest, t, h => by
    unfold cascade
    by_cases ht : t = u
    · subst ht; simp
    · simp only [if_neg ht]
      exact cascade_mem branch rest t (by rcases List.mem_cons.mp h with h | h; exact absurd h ht; exact h)

lemma cascade_not_mem (branch : Nat → Except Err (List (List Nat))) :
    ∀ (l : List Nat) (t : Nat), t ∉ l → cascade branch l t = Except.error (Err.unsupportedSize t)
  | [], t, _ => rfl
  | u :: rest, t, h => by
    unfold cascade
    have ht : t ≠ u := fun he => h (he ▸ List.mem_cons_self u rest)
    simp only [if_neg ht]
    exact cascade_not_mem branch rest t (fun hm => h (List.mem_cons_of_mem u hm))

lemma mem_selectors {t : Nat} (h2 : 2 ≤ t) (h17 : t ≤ 17) : t ∈ List.range' 2 16 :=
  List.mem_range'.mpr ⟨t - 2, by omega, by omega⟩

lemma not_mem_selectors {t : Nat} (h : t < 2 ∨ 17 < t) : t ∉ List.range' 2 16 := by
  intro hm
  rcases List.mem_range'.mp hm with ⟨i, hi, rfl⟩
  omega

lemma getD_map_range {β : Type} (f : Nat → β) (d : β) (n r : Nat) (h : r < n) :
    ((List.range n).map f).getD r d = f r := by
  rw [List.getD_eq_getD_get?, List.get?_map, List.get?_range h]
  rfl

lemma partial_rounds_ok {t : Nat} (h17 : t ≤ 17) :
    pyIndex PARTIAL_ROUNDS (t - 2) = Except.ok (PARTIAL_ROUNDS.getD (t - 2) 0) :=
  pyIndex_ok_of_lt PARTIAL_ROUNDS 0 (t - 2) (by unfold PARTIAL_ROUNDS; simp; omega)

lemma index_lt_of_lt {rnd t i rows : Nat} (hr : rnd < rows) (hi : i < t) :
    rnd * t + i < rows * t := by
  have h1 : rnd * t + i < rnd * t + t := by omega
  have h2 : rnd * t + t = (rnd + 1) * t := by ring
  have h3 : (rnd + 1) * t ≤ rows * t := Nat.mul_le_mul_right t (by omega)
  omega

/-- The branch body succeeds and produces the row-major reshape whenever the
flat sequence covers all indices it reads. -/
lemma arkBranch_ok_of_le (C : Nat → Option (List Nat)) (t : Nat) (cs : List Nat)
    (h17 : t ≤ 17) (hC : C t = some cs)
    (hlen : (FULL_ROUNDS + PARTIAL_ROUNDS.getD (t - 2) 0) * t ≤ cs.length) :
    arkBranch C t = Except.ok (arkShape cs t) := by
  unfold arkBranch
  rw [show pyDictGet C t = Except.ok cs by unfold pyDictGet; rw [hC]]
  rw [partial_rounds_ok h17]
  have hout : mapE (fun rnd => mapE (fun i => pyIndex cs (rnd * t + i)) (List.range t))
      (List.range (FULL_ROUNDS + PARTIAL_ROUNDS.getD (t - 2) 0)) =
      Except.ok (arkShape cs t) := by
    apply mapE_ok_of
    intro rnd hrnd
    apply mapE_ok_of
    intro i hi
    apply pyIndex_ok_of_lt
    have hr := List.mem_range.mp hrnd
    have hii := List.mem_range.mp hi
    exact lt_of_lt_of_le (index_lt_of_lt hr hii) hlen
  exact hout

/-- The branch body raises an index error whenever the flat sequence is too
short for the indices it reads. -/
lemma arkBranch_err_of_short (C : Nat → Option (List Nat)) (t : Nat) (cs : List Nat)
    (h2 : 2 ≤ t) (h17 : t ≤ 17) (hC : C t = some cs)
    (hlen : cs.length < (FULL_ROUNDS + PARTIAL_ROUNDS.getD (t - 2) 0) * t) :
    arkBranch C t = Except.error Err.indexError := by
  unfold arkBranch
  rw [show pyDictGet C t = Except.ok cs by unfold pyDictGet; rw [hC]]
  rw [partial_rounds_ok h17]
  set rows := FULL_ROUNDS + PARTIAL_ROUNDS.getD (t - 2) 0 with hrows
  have hcase := mapE_cases
    (fun rnd => mapE (fun i => pyIndex cs (rnd * t + i)) (List.range t))
    (fun rnd => (List.range t).map (fun i => cs.getD (rnd * t + i) 0))
    Err.indexError (List.range rows)
    (by
      intro rnd _
      exact mapE_cases (fun i => pyIndex cs (rnd * t + i))
        (fun i => cs.getD (rnd * t + i) 0) Err.indexError (List.range t)
        (fun i _ => pyIndex_cases cs (rnd * t + i)))
  rcases hcase with hok | herr
  · exfalso
    have hrowspos : 1 ≤ rows := by unfold_let rows; unfold FULL_ROUNDS; omega
    have hrmem : rows - 1 ∈ List.range rows := List.mem_range.mpr (by omega)
    have himem : t - 1 ∈ List.range t := List.mem_range.mpr (by omega)
    obtain ⟨row, hrow⟩ := mapE_ok_forall _ (List.range rows) _ hok (rows - 1) hrmem
    obtain ⟨v, hv⟩ := mapE_ok_forall _ (List.range t) _ hrow (t - 1) himem
    have hbound := pyIndex_ok_bound cs ((rows - 1) * t + (t - 1)) v hv
    have hexp : (rows - 1) * t + t = rows * t := by
      have : rows - 1 + 1 = rows := by omega
      calc (rows - 1) * t + t = (rows - 1 + 1) * t := by ring
        _ = rows * t := by rw [this]
    omega
  · exact herr

/-- C1, main theorem: for every selector `t` in `2..17` and a table entry
`C[t]` long enough, the generated `get_ark` accessor at `t` returns exactly
`8 + PARTIAL_ROUNDS[t-2]` rows of exactly `t` values each, filled row-major:
row `r`, column `i` holds `C[t][r*t + i]`. -/
theorem c1_get_ark_shape (C : Nat → Option (List Nat)) (t : Nat) (cs : List Nat)
    (h2 : 2 ≤ t) (h17 : t ≤ 17) (hC : C t = some cs)
    (hlen : (FULL_ROUNDS + PARTIAL_ROUNDS.getD (t - 2) 0) * t ≤ cs.length) :
    get_ark C t = Except.ok (arkShape cs t) ∧
    (arkShape cs t).length = FULL_ROUNDS + PARTIAL_ROUNDS.getD (t - 2) 0 ∧
    (∀ row ∈ arkShape cs t, row.length = t) ∧
    (∀ r, r < FULL_ROUNDS + PARTIAL_ROUNDS.getD (t - 2) 0 → ∀ i, i < t →
      ((arkShape cs t).getD r []).getD i 0 = cs.getD (r * t + i) 0) := by
  refine ⟨?_, ?_, ?_, ?_⟩
  · unfold get_ark
    rw [cascade_mem (arkBranch C) (List.range' 2 16) t (mem_selectors h2 h17)]
    exact arkBranch_ok_of_le C t cs h17 hC hlen
  · unfold arkShape; simp
  · intro row hrow
    unfold arkShape at hrow
    rcases List.mem_map.mp hrow with ⟨rnd, _, rfl⟩
    simp
  · intro r hr i hi
    unfold arkShape
    rw [getD_map_range _ _ _ _ hr, getD_map_range _ _ _ _ hi]

lemma getD_take_of_lt {α : Type} (l : List α) (d : α) (n i : Nat) (h : i < n) :
    (l.take n).getD i d = l.getD i d := by
  rw [List.getD_eq_getD_get?, List.getD_eq_getD_get?, List.get?_take h]

set_option maxRecDepth 10000 in
/-- C1, witness: the theorem applied at `t = 2` with a 128-element flat
sequence (`(8 + 56) * 2 = 128`). -/
theorem c1_get_ark_shape_witness :
    get_ark (fun n => if n = 2 then some (List.range 128) else none) 2 =
      Except.ok (arkShape (List.range 128) 2) ∧
    (arkShape (List.range 128) 2).length = FULL_ROUNDS + PARTIAL_ROUNDS.getD 0 0 ∧
    (∀ row ∈ arkShape (List.range 128) 2, row.length = 2) ∧
    (∀ r, r < FULL_ROUNDS + PARTIAL_ROUNDS.getD 0 0 → ∀ i, i < 2 →
      ((arkShape (List.range 128) 2).getD r []).getD i 0 = (List.range 128).getD (r * 2 + i) 0) :=
  c1_get_ark_shape _ 2 _ (by decide) (by decide) rfl (by decide)

set_option maxRecDepth 10000 in
/-- C3, counterexample: at `t = 2` a flat sequence of length 129 does not have
length exactly `(8 + PARTIAL_ROUNDS[0]) * 2 = 128`, yet the reshape succeeds
(the 129th value is silently ignored), contradicting the claim that any
length mismatch fails. -/
theorem c3_leftover_counterexample :
    (List.replicate 129 (0 : Nat)).length ≠ (FULL_ROUNDS + PARTIAL_ROUNDS.getD 0 0) * 2 ∧
    (get_ark (fun n => if n = 2 then some (List.replicate 129 (0 : Nat)) else none) 2).isOk = true := by
  constructor
  · decide
  · have h := arkBranch_ok_of_le (fun n => if n = 2 then some (List.replicate 129 (0 : Nat)) else none)
      2 (List.replicate 129 0) (by decide) rfl (by decide)
    unfold get_ark
    rw [cascade_mem _ _ _ (mem_selectors (by decide) (by decide)), h]
    rfl

/-- C3, amended: for `t` in `2..17`, the reshape fails (with the uncaught
index error that is the spec's `ShapeMismatch`) exactly when the flat
sequence is shorter than `(8 + PARTIAL_ROUNDS[t-2]) * t`; when it is at least
that long the reshape succeeds and any extra values are silently ignored
(the result depends only on the first `(8 + PARTIAL_ROUNDS[t-2]) * t`
values). -/
theorem c3_reshape_short_fails_long_ignored (C : Nat → Option (List Nat)) (t : Nat) (cs : List Nat)
    (h2 : 2 ≤ t) (h17 : t ≤ 17) (hC : C t = some cs) :
    (cs.length < (FULL_ROUNDS + PARTIAL_ROUNDS.getD (t - 2) 0) * t →
      get_ark C t = Except.error Err.indexError) ∧
    ((FULL_ROUNDS + PARTIAL_ROUNDS.getD (t - 2) 0) * t ≤ cs.length →
      get_ark C t = Except.ok (arkShape cs t) ∧
      arkShape cs t = arkShape (cs.take ((FULL_ROUNDS + PARTIAL_ROUNDS.getD (t - 2) 0) * t)) t) := by
  constructor
  · intro hshort
    unfold get_ark
    rw [cascade_mem _ _ _ (mem_selectors h2 h17)]
    exact arkBranch_err_of_short C t cs h2 h17 hC hshort
  · intro hlong
    constructor
    · unfold get_ark
      rw [cascade_mem _ _ _ (mem_selectors h2 h17)]
      exact arkBranch_ok_of_le C t cs h17 hC hlong
    · unfold arkShape
      apply List.map_congr_left
      intro rnd hrnd
      apply List.map_congr_left
      intro i hi
      rw [getD_take_of_lt]
      exact index_lt_of_lt (List.mem_range.mp hrnd) (List.mem_range.mp hi)

set_option maxRecDepth 10000 in
/-- C3, witness: the amended theorem applied at `t = 2` with a 1-element flat
sequence (too short, fails) and a 129-element one (extra value ignored). -/
theorem c3_reshape_witness :
    get_ark (fun n => if n = 2 then some [5] else none) 2 = Except.error Err.indexError ∧
    (get_ark (fun n => if n = 2 then some (List.replicate 129 (0 : Nat)) else none) 2 =
        Except.ok (arkShape (List.replicate 129 0) 2) ∧
      arkShape (List.replicate 129 0) 2 =
        arkShape ((List.replicate 129 (0 : Nat)).take ((FULL_ROUNDS + PARTIAL_ROUNDS.getD 0 0) * 2)) 2) :=
  ⟨(c3_reshape_short_fails_long_ignored _ 2 _ (by decide) (by decide) rfl).1 (by decide),
   (c3_reshape_short_fails_long_ignored _ 2 _ (by decide) (by decide) rfl).2 (by decide)⟩

/-- C4: for every selector outside `2..17`, both generated accessors reach
the unconditional terminal branch and fail with `UnsupportedSize` carrying
the offending `t` (they never return a structure). -/
theorem c4_unsupported_size (C : Nat → Option (List Nat)) (M : Nat → Option (List (List Nat)))
    (t : Nat) (h : t < 2 ∨ 17 < t) :
    get_ark C t = Except.error (Err.unsupportedSize t) ∧
    get_mds M t = Except.error (Err.unsupportedSize t) :=
  ⟨cascade_not_mem _ _ _ (not_mem_selectors h),
   cascade_not_mem _ _ _ (not_mem_selectors h)⟩

/-- C4, witness: the theorem applied at `t = 18`. -/
theorem c4_unsupported_size_witness :
    get_ark (fun _ => none) 18 = Except.error (Err.unsupportedSize 18) ∧
    get_mds (fun _ => none) 18 = Except.error (Err.unsupportedSize 18) :=
  c4_unsupported_size _ _ 18 (by decide)

/-- C6: for every selector `t` in `2..17`, given the table entry `M[t]` with
the documented shape (`t` rows of `t` entries), the generated `get_mds`
accessor at `t` returns it: exactly `t` rows, each of exactly `t` entries. -/
theorem c6_get_mds_shape (M : Nat → Option (List (List Nat))) (t : Nat) (rows : List (List Nat))
    (h2 : 2 ≤ t) (h17 : t ≤ 17) (hM : M t = some rows)
    (hlen : rows.length = t) (hrow : ∀ r ∈ rows, r.length = t) :
    get_mds M t = Except.ok rows ∧ rows.length = t ∧ ∀ r ∈ rows, r.length = t := by
  refine ⟨?_, hlen, hrow⟩
  unfold get_mds
  rw [cascade_mem _ _ _ (mem_selectors h2 h17)]
  unfold mdsBranch pyDictGet
  rw [hM]

/-- C6, witness: the theorem applied at `t = 2` with a 2-by-2 table entry. -/
theorem c6_get_mds_shape_witness :
    get_mds (fun n => if n = 2 then some [[1, 2], [3, 4]] else none) 2 =
      Except.ok [[1, 2], [3, 4]] ∧
    ([[1, 2], [3, 4]] : List (List Nat)).length = 2 ∧
    ∀ r ∈ ([[1, 2], [3, 4]] : List (List Nat)), r.length = 2 :=
  c6_get_mds_shape _ 2 _ (by decide) (by decide) rfl (by decide) (by decide)

/-! Embedding of `gen_constants.py`: marker splitting, the regex-match
processing loop, and the `eval` of matched value literals. -/

/-- Values produced by evaluating a matched value literal: Python ints
(arbitrary precision) and lists. -/
inductive PyVal where
  | int : Nat → PyVal
  | list : List PyVal → PyVal

/-- Whitespace as skipped by Python's expression tokenizer. -/
def isWsC (c : Char) : Bool := c = ' ' || c = '\n' || c = '\t' || c = '\r'

/-- Drop leading whitespace. -/
def skipWs : List Char → List Char
  | [] => []
  | c :: cs => if isWsC c then skipWs cs else c :: cs

/-- Parse a leading run of decimal digits into its value and the rest. -/
def parseNum (cs : List Char) : Option (Nat × List Char) :=
  if (cs.takeWhile Char.isDigit).isEmpty then none
  else some (digitsVal (cs.takeWhile Char.isDigit), cs.dropWhile Char.isDigit)

/-- Python `+` on the evaluated values: integer addition, list
concatenation. -/
def pyAdd : PyVal → PyVal → Option PyVal
  | PyVal.int a, PyVal.int b => some (PyVal.int (a + b))
  | PyVal.list a, PyVal.list b => some (PyVal.list (a ++ b))
  | _, _ => none

mutual

/-- Parse a term: a list display or a decimal integer literal. -/
def parseTerm : Nat → List Char → Option (PyVal × List Char)
  | 0, _ => none
  | f + 1, cs =>
    match skipWs cs with
    | [] => none
    | c :: rest =>
      if c = '[' then parseItems f rest
      else (parseNum (c :: rest)).map (fun p => (PyVal.int p.1, p.2))

/-- Parse the items of a list display after the opening bracket. -/
def parseItems : Nat → List Char → Option (PyVal × List Char)
  | 0, _ => none
  | f + 1, cs =>
    match skipWs cs with
    | [] => none
    | c :: rest =>
      if c = ']' then some (PyVal.list [], rest)
      else
        match parseExpr f (c :: rest) with
        | none => none
        | some (v, rest2) => parseItemsTail f [v] rest2

/-- Parse the remaining comma-separated items of a list display. -/
def parseItemsTail : Nat → List PyVal → List Char → Option (PyVal × List Char)
  | 0, _, _ => none
  | f + 1, acc, cs =>
    match skipWs cs with
    | [] => none
    | c :: rest =>
      if c = ']' then some (PyVal.list acc.reverse, rest)
      else if c = ',' then
        match parseExpr f rest with
        | none => none
        | some (v, rest2) => parseItemsTail f (v :: acc) rest2
      else none

/-- After a parsed left operand, fold any `+ term` continuations. -/
def parseSum : Nat → PyVal → List Char → Option (PyVal × List Char)
  | 0, _, _ => none
  | f + 1, v, cs =>
    match skipWs cs with
    | [] => some (v, [])
    | c :: rest =>
      if c = '+' then
        match parseTerm f rest with
        | none => none
        | some (w, rest2) =>
          match pyAdd v w with
          | none => none
          | some s => parseSum f s rest2
      else some (v, c :: rest)

/-- Parse an expression: a term followed by `+` continuations. -/
def parseExpr : Nat → List Char → Option (PyVal × List Char)
  | 0, _ => none
  | f + 1, cs =>
    match parseTerm f cs with
    | none => none
    | some (v, rest) => parseSum f v rest

end

/-- Python `eval` applied to a matched value literal (`gen_constants.py`
lines 15 and 20). `eval` is Python's general expression evaluator; this is
its restriction to the fragment relevant here: decimal integer literals,
list displays, and binary `+`. Everything the fragment cannot evaluate is a
generic evaluation failure (`SyntaxError`/`TypeError`), carrying no selector
information. -/
def pyEval (cs : List Char) : Except Err PyVal :=
  match parseExpr (3 * cs.length + 3) cs with
  | some (v, rest) => if skipWs rest = [] then Except.ok v else Except.error Err.evalError
  | none => Except.error Err.evalError

/-- An extracted table: a Python dict keyed by the parsed selector. Only
lookups matter to the pipeline, so the dict is modelled as its lookup
function. -/
def Table : Type := Nat → Option PyVal

/-- Dict assignment `d[k] = v`. -/
def updT (tbl : Table) (k : Nat) (v : PyVal) : Table :=
  fun n => if n = k then some v else tbl n

/-- One iteration of `for i, c in match: C[int(i)] = eval(c)`
(`gen_constants.py` lines 14-15 and 19-20). -/
def buildStep (tbl : Table) (m : List Char × List Char) : Except Err Table :=
  match pyInt m.1 with
  | Except.error e => Except.error e
  | Except.ok k =>
    match pyEval m.2 with
    | Except.error e => Except.error e
    | Except.ok v => Except.ok (updT tbl k v)

/-- The whole match-processing loop, starting from the empty dict. -/
def buildTable (ms : List (List Char × List Char)) : Except Err Table :=
  foldE buildStep (fun _ => none) ms

/-- Whether a `(selector, value)` match is for selector `N`. -/
def matchesSel (N : Nat) (m : List Char × List Char) : Bool :=
  match pyInt m.1 with
  | Except.ok k => k == N
  | Except.error _ => false

/-- The value text of the last match for selector `N`, in document order
(`re.findall` returns matches in document order). -/
def lastFor (ms : List (List Char × List Char)) (N : Nat) : Option (List Char) :=
  (ms.reverse.find? (matchesSel N)).map Prod.snd

/-- Index of the first occurrence of `sep` in a character list, if any. -/
def findSub (sep : List Char) : List Char → Option Nat
  | [] => if sep.isPrefixOf ([] : List Char) then some 0 else none
  | c :: cs =>
    if sep.isPrefixOf (c :: cs) then some 0
    else (findSub sep cs).map (fun i => i + 1)

lemma findSub_some_bound (sep : List Char) :
    ∀ (s : List Char) (i : Nat), findSub sep s = some i → i + sep.length ≤ s.length := by
  intro s
  induction s with
  | nil =>
    intro i h
    unfold findSub at h
    by_cases hp : sep.isPrefixOf ([] : List Char)
    · have : sep = [] := List.prefix_nil.mp (List.isPrefixOf_iff_prefix.mp hp)
      simp [hp] at h
      simp [this, ← h]
    · simp [hp] at h
  | cons c cs ih =>
    intro i h
    unfold findSub at h
    by_cases hp : sep.isPrefixOf (c :: cs)
    · rw [if_pos hp] at h
      have hi : i = 0 := (Option.some.inj h).symm
      have hlen := (List.isPrefixOf_iff_prefix.mp hp).length_le
      simp only [List.length_cons] at hlen ⊢
      omega
    · rw [if_neg hp] at h
      rcases Option.map_eq_some'.mp h with ⟨j, hj, rfl⟩
      have := ih j hj
      simp only [List.length_cons]
      omega

/-- Python `data.split(sep)` for a non-empty separator: split at every
non-overlapping occurrence, left to right. -/
def pySplit (sep s : List Char) : List (List Char) :=
  if hsep : sep.length = 0 then [s]
  else
    match hf : findSub sep s with
    | none => [s]
    | some i => s.take i :: pySplit sep (s.drop (i + sep.length))
termination_by s.length
decreasing_by
  have hb := findSub_some_bound sep s i hf
  simp
  omega

/-- The first region marker of `gen_constants.py`. -/
def POSEIDON_C : List Char := "POSEIDON_C".data

/-- The second region marker of `gen_constants.py`. -/
def POSEIDON_M : List Char := "POSEIDON_M".data

/-- The extraction pipeline of `gen_constants.py` (lines 8-20): split on the
markers (`[1]` and `[0]` subscripts raising `IndexError` when a marker is
absent), then run the match loop on each region. The regex scan
`re.findall(...)` is abstracted as the parameter `findall`, returning the
`(selector, value)` capture pairs in document order. -/
def gen_constants_py (findall : List Char → List (List Char × List Char)) (doc : List Char) :
    Except Err (Table × Table) :=
  match pyIndex (pySplit POSEIDON_C doc) 1 with
  | Except.error e => Except.error e
  | Except.ok afterC =>
    match pyIndex (pySplit POSEIDON_M afterC) 0 with
    | Except.error e => Except.error e
    | Except.ok C_data =>
      match pyIndex (pySplit POSEIDON_M doc) 1 with
      | Except.error e => Except.error e
      | Except.ok M_data =>
        match buildTable (findall C_data) with
        | Except.error e => Except.error e
        | Except.ok C =>
          match buildTable (findall M_data) with
          | Except.error e => Except.error e
          | Except.ok M => Except.ok (C, M)

/-- Whether the run of `gen_constants.py` writes `constants.py`: the write
(lines 22-24) is the last statement of the script, reached only when every
earlier line ran without raising. -/
def constantsWritten (findall : List Char → List (List Char × List Char)) (doc : List Char) : Bool :=
  (gen_constants_py findall doc).isOk

/-- Necessary character condition for the spec's well-formed nested numeric
structure (an array of decimal numbers or array of arrays of decimal
numbers): such a literal consists only of digits, brackets, commas and
whitespace, so text failing this check is not a well-formed nested numeric
structure. -/
def nestedNumericCharsOnly (cs : List Char) : Bool :=
  cs.all (fun c =>
    c.isDigit || c = '[' || c = ']' || c = ',' || c = ' ' || c = '\n' || c = '\t' || c = '\r')

/-- The Rust literal emitted for one numeric value (`gen_rs.py` lines 44 and
71): a large-number-from-decimal-string construction. -/
def renderLit (n : Nat) : String :=
  "F::from_str(\"" ++ decStr n ++ "\").unwrap_or_else(|_| panic!(\"pepega\")),\n"

/-- The decimal text between the quotes of an emitted literal, as a
re-parser of the generated module sees it. -/
def quotedOf (s : String) : List Char :=
  (pySplit ['"'] s.data).getD 1 []

/-! helper lemmas about splitting and table building -/

lemma pySplit_of_none {sep s : List Char} (h : findSub sep s = none) :
    pySplit sep s = [s] := by
  rw [pySplit]
  split
  · rfl
  · split
    · rfl
    · rename_i i hf
      rw [h] at hf
      exact absurd hf (by simp)

lemma pySplit_of_some {sep s : List Char} {i : Nat} (hsep : ¬sep.length = 0)
    (h : findSub sep s = some i) :
    pySplit sep s = s.take i :: pySplit sep (s.drop (i + sep.length)) := by
  rw [pySplit]
  rw [dif_neg hsep]
  split
  · rename_i hf
    rw [h] at hf
    exact absurd hf (by simp)
  · rename_i j hf
    rw [h] at hf
    rw [Option.some.inj hf]

lemma pySplit_ne_nil (sep s : List Char) : pySplit sep s ≠ [] := by
  rw [pySplit]
  split
  · simp
  · split
    · simp
    · simp

lemma pyIndex_one_of_cons {α : Type} (a : α) (l : List α) (hl : l ≠ []) :
    ∃ b, pyIndex (a :: l) 1 = Except.ok b := by
  obtain ⟨b, l', rfl⟩ := List.exists_cons_of_ne_nil hl
  exact ⟨b, rfl⟩

lemma pyIndex_zero_of_ne_nil {α : Type} (l : List α) (hl : l ≠ []) :
    ∃ b, pyIndex l 0 = Except.ok b := by
  obtain ⟨b, l', rfl⟩ := List.exists_cons_of_ne_nil hl
  exact ⟨b, rfl⟩

lemma pyIndex_one_singleton {α : Type} (a : α) :
    pyIndex [a] 1 = Except.error Err.indexError := rfl

/-- C8: for every input document in which the first marker or (in particular)
the second marker `POSEIDON_M` does not occur, the extraction pipeline
aborts with the uncaught index error raised by the marker subscript (the
failure the spec names `MalformedInput`), before any table is scanned and
before the output write of `constants.py` is reached. -/
theorem c8_missing_marker_aborts (doc : List Char)
    (findall : List Char → List (List Char × List Char))
    (h : findSub POSEIDON_C doc = none ∨ findSub POSEIDON_M doc = none) :
    gen_constants_py findall doc = Except.error Err.indexError ∧
    constantsWritten findall doc = false := by
  have main : gen_constants_py findall doc = Except.error Err.indexError := by
    unfold gen_constants_py
    rcases h with hC | hM
    · rw [pySplit_of_none hC, pyIndex_one_singleton]
    · cases hC : findSub POSEIDON_C doc with
      | none => rw [pySplit_of_none hC, pyIndex_one_singleton]
      | some i =>
        rw [pySplit_of_some (by decide) hC]
        obtain ⟨afterC, hafter⟩ :=
          pyIndex_one_of_cons (doc.take i)
            (pySplit POSEIDON_C (doc.drop (i + POSEIDON_C.length)))
            (pySplit_ne_nil _ _)
        rw [hafter]
        dsimp only
        obtain ⟨cdata, hcdata⟩ :=
          pyIndex_zero_of_ne_nil (pySplit POSEIDON_M afterC) (pySplit_ne_nil _ _)
        rw [hcdata]
        dsimp only
        rw [pySplit_of_none hM, pyIndex_one_singleton]
  exact ⟨main, by unfold constantsWritten; rw [main]; rfl⟩

/-- C8, witness: the theorem applied to a document containing `POSEIDON_C`
but no `POSEIDON_M` marker. -/
theorem c8_missing_marker_aborts_witness :
    gen_constants_py (fun _ => []) ("POSEIDON_C [1]").data = Except.error Err.indexError ∧
    constantsWritten (fun _ => []) ("POSEIDON_C [1]").data = false :=
  c8_missing_marker_aborts _ _ (Or.inr (by decide))

lemma find?_append_single {α : Type} (p : α → Bool) (x : α) :
    ∀ l : List α, (l ++ [x]).find? p =
      match l.find? p with
      | some y => some y
      | none => if p x then some x else none := by
  intro l
  induction l with
  | nil =>
    cases hx : p x <;> simp [List.find?_cons, hx]
  | cons a l ih =>
    cases ha : p a <;> simp [List.find?_cons, ha, ih]

lemma buildTable_aux :
    ∀ (ms : List (List Char × List Char)) (acc tbl : Table),
      foldE buildStep acc ms = Except.ok tbl → ∀ N : Nat,
      (∀ c, lastFor ms N = some c →
        ∃ v, pyEval c = Except.ok v ∧ tbl N = some v) ∧
      (lastFor ms N = none → tbl N = acc N) := by
  intro ms
  induction ms with
  | nil =>
    intro acc tbl h N
    have htbl : tbl = acc := (Except.ok.inj h).symm
    subst htbl
    constructor
    · intro c hc
      unfold lastFor at hc
      simp [List.find?] at hc
    · intro _; rfl
  | cons m ms ih =>
    intro acc tbl h N
    unfold foldE at h
    cases hstep : buildStep acc m with
    | error e => rw [hstep] at h; exact absurd h (by simp)
    | ok acc' =>
      rw [hstep] at h
      unfold buildStep at hstep
      cases hk : pyInt m.1 with
      | error e => rw [hk] at hstep; exact absurd hstep (by simp)
      | ok k =>
        rw [hk] at hstep
        cases hv : pyEval m.2 with
        | error e => rw [hv] at hstep; exact absurd hstep (by simp)
        | ok v =>
          rw [hv] at hstep
          have hacc' : acc' = updT acc k v := (Except.ok.inj hstep).symm
          subst hacc'
          have IH := ih (updT acc k v) tbl h N
          have hrev : (m :: ms).reverse = ms.reverse ++ [m] := by simp
          constructor
          · intro c hc
            unfold lastFor at hc
            rw [hrev, find?_append_single] at hc
            cases hfind : ms.reverse.find? (matchesSel N) with
            | some y =>
              rw [hfind] at hc
              simp at hc
              obtain ⟨v', hv', htbl'⟩ := IH.1 y.2 (by unfold lastFor; rw [hfind]; rfl)
              exact ⟨v', by rw [← hc]; exact hv', htbl'⟩
            | none =>
              rw [hfind] at hc
              cases hm : matchesSel N m with
              | false => rw [hm] at hc; simp at hc
              | true =>
                rw [hm] at hc
                simp at hc
                have hkN : k = N := by
                  unfold matchesSel at hm
                  rw [hk] at hm
                  exact beq_iff_eq.mp hm
                have htbl' := IH.2 (by unfold lastFor; rw [hfind]; rfl)
                refine ⟨v, by rw [← hc]; exact hv, ?_⟩
                rw [htbl']
                unfold updT
                rw [if_pos hkN.symm]
          · intro hnone
            unfold lastFor at hnone
            rw [hrev, find?_append_single] at hnone
            cases hfind : ms.reverse.find? (matchesSel N) with
            | some y => rw [hfind] at hnone; simp at hnone
            | none =>
              rw [hfind] at hnone
              cases hm : matchesSel N m with
              | true => rw [hm] at hnone; simp at hnone
              | false =>
                have htbl' := IH.2 (by unfold lastFor; rw [hfind]; rfl)
                rw [htbl']
                unfold updT
                have hkN : ¬(N = k) := by
                  intro he
                  unfold matchesSel at hm
                  rw [hk] at hm
                  rw [he] at hm
                  simp at hm
                rw [if_neg hkN]

/-- C9: when a region's match list has several matches with the same
selector `N`, the built table maps `N` to the evaluated value of the last
such match in document order (dict assignment overwrites, so the last
occurrence wins). -/
theorem c9_last_occurrence_wins (ms : List (List Char × List Char)) (N : Nat) (c : List Char)
    (hok : (buildTable ms).isOk = true) (hlast : lastFor ms N = some c) :
    (buildTable ms).toOption.map (fun tb => tb N) = some ((pyEval c).toOption) := by
  cases hb : buildTable ms with
  | error e => rw [hb] at hok; exact Bool.noConfusion hok
  | ok tbl =>
    obtain ⟨v, hv, htbl⟩ :=
      (buildTable_aux ms (fun _ => none) tbl (by unfold buildTable at hb; exact hb) N).1 c hlast
    simp [Except.toOption, hv, htbl]

/-- C9, witness: the theorem applied to a match list with two matches for
selector 2, values `7` then `9`; the table holds `9`. -/
theorem c9_last_occurrence_wins_witness :
    (buildTable [("2".data, "7".data), ("2".data, "9".data)]).toOption.map (fun tb => tb 2) =
      some ((pyEval "9".data).toOption) :=
  c9_last_occurrence_wins _ 2 _ (by rfl) (by rfl)

/-- C7, counterexample: the value text `1+1` is not a well-formed nested
numeric structure (it fails even the character-level necessary condition),
yet extraction accepts it and stores its evaluated value `2` for selector 2
instead of failing with a `MalformedValue` error. -/
theorem c7_eval_accepts_expression_counterexample :
    nestedNumericCharsOnly ("1+1").data = false ∧
    (buildTable [(("2").data, ("1+1").data)]).isOk = true ∧
    (buildTable [(("2").data, ("1+1").data)]).toOption.map (fun tb => tb 2) =
      some (some (PyVal.int 2)) :=
  ⟨rfl, rfl, rfl⟩

/-- C7, amended: extraction evaluates each matched value literal as a
general Python expression (`eval`): a non-literal expression such as `1+1`
is accepted and evaluated to `2` rather than rejected, and text that fails
to evaluate raises a generic evaluation error carrying no selector
information. -/
theorem c7_eval_general_expression :
    pyEval ("1+1").data = Except.ok (PyVal.int 2) ∧
    pyEval ("[1,2").data = Except.error Err.evalError :=
  ⟨rfl, rfl⟩

/-! decimal round-trip lemmas for the emitted literals -/

lemma digitChar_isDigit {d : Nat} (h : d < 10) : (digitChar d).isDigit = true := by
  interval_cases d <;> decide

lemma digitChar_toNat {d : Nat} (h : d < 10) : (digitChar d).toNat = 48 + d := by
  interval_cases d <;> decide

lemma decDigits_ne_nil (n : Nat) : decDigits n ≠ [] := by
  rw [decDigits]
  split
  · simp
  · simp

lemma decDigits_all_digit (n : Nat) : ∀ c ∈ decDigits n, c.isDigit = true := by
  induction n using Nat.strong_induction_on with
  | _ n ih =>
    rw [decDigits]
    split
    · rename_i h
      intro c hc
      simp at hc
      subst hc
      exact digitChar_isDigit h
    · rename_i h
      intro c hc
      rcases List.mem_append.mp hc with h1 | h2
      · exact ih (n / 10) (Nat.div_lt_self (by omega) (by omega)) c h1
      · simp at h2
        subst h2
        exact digitChar_isDigit (Nat.mod_lt _ (by omega))

lemma digitsVal_decDigits (n : Nat) : digitsVal (decDigits n) = n := by
  induction n using Nat.strong_induction_on with
  | _ n ih =>
    rw [decDigits]
    split
    · rename_i h
      unfold digitsVal
      simp only [List.foldl_cons, List.foldl_nil]
      rw [digitChar_toNat h]
      omega
    · rename_i h
      unfold digitsVal
      rw [List.foldl_append]
      have hrec : List.foldl (fun a c => 10 * a + (c.toNat - 48)) 0 (decDigits (n / 10)) = n / 10 :=
        ih (n / 10) (Nat.div_lt_self (by omega) (by omega))
      rw [hrec]
      simp only [List.foldl_cons, List.foldl_nil]
      rw [digitChar_toNat (Nat.mod_lt _ (by omega))]
      omega

lemma parseDec_decDigits (n : Nat) : parseDec (decDigits n) = some n := by
  unfold parseDec
  rw [if_neg (fun h => decDigits_ne_nil n (List.isEmpty_iff.mp h))]
  rw [if_pos (List.all_eq_true.mpr (decDigits_all_digit n))]
  rw [digitsVal_decDigits]

lemma isDigit_not_ws {c : Char} (h : c.isDigit = true) : isWsC c = false := by
  unfold isWsC
  by_contra hw
  simp only [Bool.not_eq_false, Bool.or_eq_true, decide_eq_true_eq] at hw
  rcases hw with ((rfl | rfl) | rfl) | rfl <;> exact absurd h (by decide)

lemma isDigit_not_lbracket {c : Char} (h : c.isDigit = true) : ¬(c = '[') :=
  fun he => by subst he; exact absurd h (by decide)

lemma isDigit_ne_quote {c : Char} (h : c.isDigit = true) : c ≠ '"' :=
  fun he => by subst he; exact absurd h (by decide)

lemma skipWs_of_head {c : Char} {l : List Char} (h : isWsC c = false) :
    skipWs (c :: l) = c :: l := by
  unfold skipWs
  rw [h]
  simp

lemma parseNum_decDigits (n : Nat) : parseNum (decDigits n) = some (n, []) := by
  unfold parseNum
  rw [List.takeWhile_eq_self_iff.mpr (decDigits_all_digit n)]
  rw [List.dropWhile_eq_nil_iff.mpr (decDigits_all_digit n)]
  rw [if_neg (fun h => decDigits_ne_nil n (List.isEmpty_iff.mp h))]
  rw [digitsVal_decDigits]

lemma skipWs_decDigits (n : Nat) : skipWs (decDigits n) = decDigits n := by
  obtain ⟨c, l, hcl⟩ := List.exists_cons_of_ne_nil (decDigits_ne_nil n)
  rw [hcl]
  exact skipWs_of_head (isDigit_not_ws (decDigits_all_digit n c (by rw [hcl]; simp)))

lemma parseTerm_decDigits (f n : Nat) :
    parseTerm (f + 1) (decDigits n) = some (PyVal.int n, []) := by
  obtain ⟨c, l, hcl⟩ := List.exists_cons_of_ne_nil (decDigits_ne_nil n)
  have hc : c.isDigit = true := decDigits_all_digit n c (by rw [hcl]; simp)
  unfold parseTerm
  rw [skipWs_decDigits n, hcl]
  dsimp only
  rw [if_neg (isDigit_not_lbracket hc)]
  rw [← hcl, parseNum_decDigits n]
  rfl

lemma parseSum_nil (f : Nat) (v : PyVal) : parseSum (f + 1) v [] = some (v, []) := by
  unfold parseSum
  rfl

lemma parseExpr_decDigits (f n : Nat) :
    parseExpr (f + 2) (decDigits n) = some (PyVal.int n, []) := by
  unfold parseExpr
  rw [parseTerm_decDigits]
  dsimp only
  exact parseSum_nil f (PyVal.int n)

lemma pyEval_decDigits (n : Nat) : pyEval (decDigits n) = Except.ok (PyVal.int n) := by
  unfold pyEval
  rw [show 3 * (decDigits n).length + 3 = (3 * (decDigits n).length + 1) + 2 from by omega]
  rw [parseExpr_decDigits]
  rfl

lemma findSub_head (q : Char) (r : List Char) : findSub [q] (q :: r) = some 0 := by
  unfold findSub
  rw [if_pos (by simp [List.isPrefixOf])]

lemma findSub_cons (sep : List Char) (c : Char) (cs : List Char) :
    findSub sep (c :: cs) =
      if sep.isPrefixOf (c :: cs) then some 0
      else (findSub sep cs).map (fun i => i + 1) := rfl

lemma findSub_append_no_occ (q : Char) :
    ∀ (ds r : List Char), (∀ c ∈ ds, c ≠ q) →
      findSub [q] (ds ++ r) = (findSub [q] r).map (fun i => i + ds.length) := by
  intro ds
  induction ds with
  | nil =>
    intro r h
    simp only [List.nil_append, List.length_nil]
    cases findSub [q] r <;> simp
  | cons d ds ih =>
    intro r h
    have hd : d ≠ q := h d (by simp)
    rw [List.cons_append, findSub_cons]
    rw [if_neg (by simp [List.isPrefixOf]; exact fun he => hd he.symm)]
    rw [ih r (fun c hc => h c (by simp [hc]))]
    cases findSub [q] r with
    | none => simp
    | some i => simp only [Option.map_some', List.length_cons, Option.some.injEq]; omega

lemma pySplit_quote_extract (q : Char) (P ds T : List Char)
    (hP : ∀ c ∈ P, c ≠ q) (hds : ∀ c ∈ ds, c ≠ q) :
    (pySplit [q] (P ++ (q :: (ds ++ (q :: T))))).getD 1 [] = ds := by
  have h1 : findSub [q] (P ++ (q :: (ds ++ (q :: T)))) = some P.length := by
    rw [findSub_append_no_occ q P _ hP, findSub_head]
    simp
  rw [pySplit_of_some (by simp) h1]
  have hdrop : (P ++ (q :: (ds ++ (q :: T)))).drop (P.length + [q].length) = ds ++ (q :: T) := by
    rw [show P ++ (q :: (ds ++ (q :: T))) = (P ++ [q]) ++ (ds ++ (q :: T)) from by simp]
    rw [show P.length + [q].length = (P ++ [q]).length from by simp]
    exact List.drop_left _ _
  rw [hdrop]
  have h2 : findSub [q] (ds ++ (q :: T)) = some ds.length := by
    rw [findSub_append_no_occ q ds _ hds, findSub_head]
    simp
  rw [pySplit_of_some (by simp) h2]
  rw [List.getD_cons_succ, List.getD_cons_zero]
  rw [show ds ++ (q :: T) = ds ++ ([q] ++ T) from by simp, ← List.append_assoc]
  rw [show ds.length = (ds ++ [q]).length - 1 from by simp]
  rw [List.take_append_eq_append_take]
  simp

lemma quotedOf_renderLit (n : Nat) : quotedOf (renderLit n) = decDigits n := by
  unfold quotedOf renderLit
  rw [String.data_append, String.data_append]
  rw [show ("F::from_str(\"" : String).data = "F::from_str(".data ++ ['"'] from rfl]
  rw [show ("\").unwrap_or_else(|_| panic!(\"pepega\")),\n" : String).data =
      '"' :: (").unwrap_or_else(|_| panic!(\"pepega\")),\n").data from rfl]
  rw [show (decStr n).data = decDigits n from rfl]
  simp only [List.append_assoc, List.singleton_append]
  exact pySplit_quote_extract '"' _ _ _ (by decide)
    (fun c hc => isDigit_ne_quote (decDigits_all_digit n c hc))

/-- C5: every numeric value is emitted as a decimal-string large-number
construction (`F::from_str("...")`); the decimal text between the quotes of
the emitted literal is exactly the value's digits, re-parsing that text
recovers the value exactly, and the extraction-side `eval` of the same
decimal text also yields the exact integer — the whole
extract-reshape-render pipeline stays in exact integers with no
precision-losing conversion. -/
theorem c5_literal_roundtrip : ∀ n : Nat,
    quotedOf (renderLit n) = decDigits n ∧
    parseDec (decDigits n) = some n ∧
    pyEval (decDigits n) = Except.ok (PyVal.int n) :=
  fun n => ⟨quotedOf_renderLit n, parseDec_decDigits n, pyEval_decDigits n⟩

/-! Embedding of the rendering state of `gen_rs.py`: the global
`indent_level` counter and the accumulated output string, threaded
explicitly. -/

/-- Rendering state: the global `indent_level` and the string accumulated by
the `ARK += ...` / `MDS += ...` statements. -/
structure GenSt where
  lvl : Int
  out : String

/-- `INDENT` from `gen_rs.py`. -/
def INDENT : String := "    "

/-- Python's `indent_level * INDENT` (a non-positive multiplier yields the
empty string, as in Python). -/
def indentText (lvl : Int) : String := String.join (List.replicate lvl.toNat INDENT)

/-- `X += ind(text)` (`gen_rs.py` lines 14-16): emit at the current level. -/
def ind (g : GenSt) (text : String) : GenSt :=
  GenSt.mk g.lvl (g.out ++ (indentText g.lvl ++ text))

/-- `X += ind_in(text)` (lines 18-22): emit at the current level, then
increment the level. -/
def ind_in (g : GenSt) (text : String) : GenSt :=
  GenSt.mk (g.lvl + 1) (g.out ++ (indentText g.lvl ++ text))

/-- `X += ind_out(text)` (lines 24-27): decrement the level, then emit at the
new level. -/
def ind_out (g : GenSt) (text : String) : GenSt :=
  GenSt.mk (g.lvl - 1) (g.out ++ (indentText (g.lvl - 1) ++ text))

/-- A bare `X += text` with no indentation. -/
def raw (g : GenSt) (text : String) : GenSt := GenSt.mk g.lvl (g.out ++ text)

/-- `indent_level += 1`. -/
def incLvl (g : GenSt) : GenSt := GenSt.mk (g.lvl + 1) g.out

/-- One iteration of the innermost loop of `gen_ark` (lines 42-44): fetch
`C[t][rnd * t + i]` and emit the rendered literal line. -/
def arkEntryT (C : Nat → Option (List Nat)) (t rnd : Nat) (g : GenSt) (i : Nat) :
    Except Err GenSt :=
  match pyDictGet C t with
  | Except.error e => Except.error e
  | Except.ok cs =>
    match pyIndex cs (rnd * t + i) with
    | Except.error e => Except.error e
    | Except.ok key => Except.ok (ind g (renderLit key))

/-- One iteration of the round loop of `gen_ark` (lines 40-45). -/
def arkRndT (C : Nat → Option (List Nat)) (t : Nat) (g : GenSt) (rnd : Nat) :
    Except Err GenSt :=
  match foldE (arkEntryT C t rnd) (ind_in g "vec![\n") (List.range t) with
  | Except.error e => Except.error e
  | Except.ok g2 => Except.ok (ind_out g2 "],\n")

/-- One iteration of the selector loop of `gen_ark` (lines 35-47): the
`if t == {t} {` text, `indent_level += 1`, the opening `vec![`, the rounds,
and the two `ind_out` lines closing the branch. -/
def arkT (C : Nat → Option (List Nat)) (g : GenSt) (t : Nat) : Except Err GenSt :=
  let g1 := raw g ("if t == " ++ decStr t ++ " \x7b\n")
  let g2 := incLvl g1
  let g3 := ind_in g2 "vec![\n"
  match pyIndex PARTIAL_ROUNDS (t - 2) with
  | Except.error e => Except.error e
  | Except.ok pr =>
    match foldE (arkRndT C t) g3 (List.range (FULL_ROUNDS + pr)) with
    | Except.error e => Except.error e
    | Except.ok g4 => Except.ok (ind_out (ind_out g4 "]\n") "\x7d else ")

/-- The renderer `gen_ark` (`gen_rs.py` lines 29-55), with the global
`indent_level` threaded explicitly from the entry state. -/
def gen_ark (C : Nat → Option (List Nat)) (g0 : GenSt) : Except Err GenSt :=
  let g1 := ind_in g0 "pub fn get_ark<F: PrimeField>(t: usize) -> Vec<Vec<F>> \x7b\n"
  let g2 := ind g1 ""
  match foldE (arkT C) g2 (List.range' 2 16) with
  | Except.error e => Except.error e
  | Except.ok g3 =>
    let g4 := raw g3 "\x7b\n"
    let g5 := incLvl g4
    let g6 := ind g5 "panic!(\"bad t value: \x7b\x7d\", t);\n"
    let g7 := ind_out g6 "\x7d\n"
    Except.ok (ind_out g7 "\x7d\n")

/-- One value line of `gen_mds`'s innermost loop (lines 70-71). -/
def mdsNumT (g : GenSt) (num : Nat) : GenSt := ind g (renderLit num)

/-- One row of `gen_mds`'s row loop (lines 68-72). -/
def mdsRowT (g : GenSt) (row : List Nat) : GenSt :=
  ind_out (row.foldl mdsNumT (ind_in g "vec![\n")) "],\n"

/-- One iteration of the selector loop of `gen_mds` (lines 63-74). -/
def mdsT (M : Nat → Option (List (List Nat))) (g : GenSt) (t : Nat) : Except Err GenSt :=
  let g1 := raw g ("if t == " ++ decStr t ++ " \x7b\n")
  let g2 := incLvl g1
  let g3 := ind_in g2 "vec![\n"
  match pyDictGet M t with
  | Except.error e => Except.error e
  | Except.ok rows =>
    Except.ok (ind_out (ind_out (rows.foldl mdsRowT g3) "]\n") "\x7d else ")

/-- The renderer `gen_mds` (`gen_rs.py` lines 57-82). -/
def gen_mds (M : Nat → Option (List (List Nat))) (g0 : GenSt) : Except Err GenSt :=
  let g1 := ind_in g0 "pub fn get_mds<F: PrimeField>(t: usize) -> Vec<Vec<F>> \x7b\n"
  let g2 := ind g1 ""
  match foldE (mdsT M) g2 (List.range' 2 16) with
  | Except.error e => Except.error e
  | Except.ok g3 =>
    let g4 := raw g3 "\x7b\n"
    let g5 := incLvl g4
    let g6 := ind g5 "panic!(\"bad t value: \x7b\x7d\", t);\n"
    let g7 := ind_out g6 "\x7d\n"
    Except.ok (ind_out g7 "\x7d\n")

/-- The fixed preamble `gen_constants_rs` writes to `src/lib.rs` before any
rendering runs (`gen_rs.py` lines 87-108), after Python's `dedent` and
f-string interpolation of `PARTIAL_ROUNDS` and `FULL_ROUNDS`. -/
def preambleText : String :=
  "\nuse ark_ff::PrimeField;\n\nuse ark_crypto_primitives::sponge::poseidon::PoseidonConfig;\n\npub const PARTIAL_ROUNDS: &\x27static [usize] = &[56, 57, 56, 60, 60, 63, 64, 63, 60, 66, 60, 65, 70, 60, 64, 68];\n\npub fn get_poseidon_params<F: PrimeField>(\n    rate: usize,\n) -> PoseidonConfig<F> \x7b\n    PoseidonConfig::new(\n        8,\n        PARTIAL_ROUNDS[rate - 1],\n        5,\n        get_mds(rate + 1),\n        get_ark(rate + 1),\n        rate,\n        1\n    )\n\x7d\n\n"

/-- The whole `gen_constants_rs` run (`gen_rs.py` lines 84-119) against the
output file: `open("src/lib.rs", "w")` discards `prior` (the file's previous
state) and truncates, the preamble is written immediately, and only then do
`gen_ark` and `gen_mds` render (global indent level starting at 0, `gen_mds`
continuing from whatever level `gen_ark` left). The first component is the
final content of the output file (`none` would mean no file); the second is
the run's outcome. -/
def gen_constants_rs_run (C : Nat → Option (List Nat)) (M : Nat → Option (List (List Nat)))
    (prior : Option String) : Option String × Except Err Unit :=
  match gen_ark C (GenSt.mk 0 "") with
  | Except.error e => (some preambleText, Except.error e)
  | Except.ok g1 =>
    match gen_mds M (GenSt.mk g1.lvl "") with
    | Except.error e => (some preambleText, Except.error e)
    | Except.ok g2 => (some (preambleText ++ (g1.out ++ "\n" ++ g2.out)), Except.ok ())

/-! indent-balance lemmas -/

lemma ind_lvl (g : GenSt) (s : String) : (ind g s).lvl = g.lvl := rfl

lemma ind_in_lvl (g : GenSt) (s : String) : (ind_in g s).lvl = g.lvl + 1 := rfl

lemma ind_out_lvl (g : GenSt) (s : String) : (ind_out g s).lvl = g.lvl - 1 := rfl

lemma raw_lvl (g : GenSt) (s : String) : (raw g s).lvl = g.lvl := rfl

lemma incLvl_lvl (g : GenSt) : (incLvl g).lvl = g.lvl + 1 := rfl

lemma foldE_lvl {α : Type} {f : GenSt → α → Except Err GenSt}
    (hf : ∀ g a r, f g a = Except.ok r → r.lvl = g.lvl) :
    ∀ (l : List α) (g r : GenSt), foldE f g l = Except.ok r → r.lvl = g.lvl := by
  intro l
  induction l with
  | nil =>
    intro g r h
    unfold foldE at h
    rw [← Except.ok.inj h]
  | cons a l ih =>
    intro g r h
    unfold foldE at h
    cases hstep : f g a with
    | error e => rw [hstep] at h; exact absurd h (by simp)
    | ok s =>
      rw [hstep] at h
      exact (ih s r h).trans (hf g a s hstep)

lemma foldl_lvl {α : Type} {f : GenSt → α → GenSt} (hf : ∀ g a, (f g a).lvl = g.lvl) :
    ∀ (l : List α) (g : GenSt), (l.foldl f g).lvl = g.lvl := by
  intro l
  induction l with
  | nil => intro g; rfl
  | cons a l ih => intro g; rw [List.foldl_cons, ih, hf]

lemma arkEntryT_lvl (C : Nat → Option (List Nat)) (t rnd : Nat) :
    ∀ g i r, arkEntryT C t rnd g i = Except.ok r → r.lvl = g.lvl := by
  intro g i r h
  unfold arkEntryT at h
  cases h1 : pyDictGet C t with
  | error e => rw [h1] at h; exact absurd h (by simp)
  | ok cs =>
    rw [h1] at h
    dsimp only at h
    cases h2 : pyIndex cs (rnd * t + i) with
    | error e => rw [h2] at h; exact absurd h (by simp)
    | ok key =>
      rw [h2] at h
      rw [← Except.ok.inj h]
      rfl

lemma arkRndT_lvl (C : Nat → Option (List Nat)) (t : Nat) :
    ∀ g rnd r, arkRndT C t g rnd = Except.ok r → r.lvl = g.lvl := by
  intro g rnd r h
  unfold arkRndT at h
  cases h1 : foldE (arkEntryT C t rnd) (ind_in g "vec![\n") (List.range t) with
  | error e => rw [h1] at h; exact absurd h (by simp)
  | ok g2 =>
    rw [h1] at h
    have h2 : g2.lvl = g.lvl + 1 :=
      (foldE_lvl (arkEntryT_lvl C t rnd) (List.range t) _ _ h1).trans (ind_in_lvl g _)
    rw [← Except.ok.inj h, ind_out_lvl, h2]
    omega

lemma arkT_lvl (C : Nat → Option (List Nat)) :
    ∀ g t r, arkT C g t = Except.ok r → r.lvl = g.lvl := by
  intro g t r h
  simp only [arkT] at h
  cases h1 : pyIndex PARTIAL_ROUNDS (t - 2) with
  | error e => rw [h1] at h; exact absurd h (by simp)
  | ok pr =>
    rw [h1] at h
    dsimp only at h
    cases h2 : foldE (arkRndT C t)
        (ind_in (incLvl (raw g ("if t == " ++ decStr t ++ " \x7b\n"))) "vec![\n")
        (List.range (FULL_ROUNDS + pr)) with
    | error e => rw [h2] at h; exact absurd h (by simp)
    | ok g4 =>
      rw [h2] at h
      dsimp only at h
      have h3 : g4.lvl = g.lvl + 2 := by
        have := foldE_lvl (arkRndT_lvl C t) (List.range (FULL_ROUNDS + pr)) _ _ h2
        rw [this, ind_in_lvl, incLvl_lvl, raw_lvl]
        omega
      rw [← Except.ok.inj h, ind_out_lvl, ind_out_lvl, h3]
      omega

lemma gen_ark_lvl (C : Nat → Option (List Nat)) :
    ∀ g r, gen_ark C g = Except.ok r → r.lvl = g.lvl := by
  intro g r h
  simp only [gen_ark] at h
  cases h1 : foldE (arkT C)
      (ind (ind_in g "pub fn get_ark<F: PrimeField>(t: usize) -> Vec<Vec<F>> \x7b\n") "")
      (List.range' 2 16) with
  | error e => rw [h1] at h; exact absurd h (by simp)
  | ok g3 =>
    rw [h1] at h
    dsimp only at h
    have h2 : g3.lvl = g.lvl + 1 := by
      have := foldE_lvl (arkT_lvl C) (List.range' 2 16) _ _ h1
      rw [this, ind_lvl, ind_in_lvl]
    rw [← Except.ok.inj h, ind_out_lvl, ind_out_lvl, ind_lvl, incLvl_lvl, raw_lvl, h2]
    omega

lemma mdsNumT_lvl : ∀ (g : GenSt) (a : Nat), (mdsNumT g a).lvl = g.lvl :=
  fun _ _ => rfl

lemma mdsRowT_lvl (g : GenSt) (row : List Nat) : (mdsRowT g row).lvl = g.lvl := by
  unfold mdsRowT
  rw [ind_out_lvl, foldl_lvl mdsNumT_lvl row, ind_in_lvl]
  omega

lemma mdsT_lvl (M : Nat → Option (List (List Nat))) :
    ∀ g t r, mdsT M g t = Except.ok r → r.lvl = g.lvl := by
  intro g t r h
  simp only [mdsT] at h
  cases h1 : pyDictGet M t with
  | error e => rw [h1] at h; exact absurd h (by simp)
  | ok rows =>
    rw [h1] at h
    dsimp only at h
    rw [← Except.ok.inj h, ind_out_lvl, ind_out_lvl,
      foldl_lvl mdsRowT_lvl rows, ind_in_lvl, incLvl_lvl, raw_lvl]
    omega

lemma gen_mds_lvl (M : Nat → Option (List (List Nat))) :
    ∀ g r, gen_mds M g = Except.ok r → r.lvl = g.lvl := by
  intro g r h
  simp only [gen_mds] at h
  cases h1 : foldE (mdsT M)
      (ind (ind_in g "pub fn get_mds<F: PrimeField>(t: usize) -> Vec<Vec<F>> \x7b\n") "")
      (List.range' 2 16) with
  | error e => rw [h1] at h; exact absurd h (by simp)
  | ok g3 =>
    rw [h1] at h
    dsimp only at h
    have h2 : g3.lvl = g.lvl + 1 := by
      have := foldE_lvl (mdsT_lvl M) (List.range' 2 16) _ _ h1
      rw [this, ind_lvl, ind_in_lvl]
    rw [← Except.ok.inj h, ind_out_lvl, ind_out_lvl, ind_lvl, incLvl_lvl, raw_lvl, h2]
    omega

/-- C10: every successful run of `gen_ark` and of `gen_mds` restores the
shared `indent_level` to exactly its entry value (net-zero effect), so the
two generated functions are emitted at the same top-level nesting depth
regardless of call order. -/
theorem c10_indent_balanced :
    ∀ (C : Nat → Option (List Nat)) (M : Nat → Option (List (List Nat))) (g : GenSt),
      (gen_ark C g).map GenSt.lvl = (gen_ark C g).map (fun _ => g.lvl) ∧
      (gen_mds M g).map GenSt.lvl = (gen_mds M g).map (fun _ => g.lvl) := by
  intro C M g
  constructor
  · cases h : gen_ark C g with
    | error e => rfl
    | ok r =>
      have := gen_ark_lvl C g r h
      simp [Except.map, this]
  · cases h : gen_mds M g with
    | error e => rfl
    | ok r =>
      have := gen_mds_lvl M g r h
      simp [Except.map, this]

/-- C2, counterexample: with `C[t]` present but empty, rendering fails at
the first constant lookup, yet starting from no prior output file
(`prior = none`) the run leaves the output file created and containing the
preamble — the file was created, truncated and partially written despite
the failure, contradicting the claim. -/
theorem c2_partial_write_counterexample :
    (gen_constants_rs_run (fun _ => some []) (fun _ => some []) none).2 =
      Except.error Err.indexError ∧
    (gen_constants_rs_run (fun _ => some []) (fun _ => some []) none).1 = some preambleText ∧
    some preambleText ≠ (none : Option String) :=
  ⟨rfl, rfl, by simp⟩

/-- C2, amended: extraction errors in `gen_constants.py` do abort before its
output write is reached (`constantsWritten` is false on failure), but the
module generator opens and truncates `src/lib.rs` and writes the fixed
preamble before rendering, so on any reshape/render failure the output file
has been created/truncated and contains exactly the preamble, regardless of
its prior content. -/
theorem c2_abort_leaves_preamble (C : Nat → Option (List Nat))
    (M : Nat → Option (List (List Nat))) (prior : Option String) (e : Err)
    (h : (gen_constants_rs_run C M prior).2 = Except.error e) :
    (gen_constants_rs_run C M prior).1 = some preambleText ∧
    (∀ (findall : List Char → List (List Char × List Char)) (doc : List Char),
      gen_constants_py findall doc = Except.error e → constantsWritten findall doc = false) := by
  constructor
  · unfold gen_constants_rs_run at h ⊢
    cases h1 : gen_ark C (GenSt.mk 0 "") with
    | error e' => rfl
    | ok g1 =>
      rw [h1] at h
      dsimp only at h ⊢
      cases h2 : gen_mds M (GenSt.mk g1.lvl "") with
      | error e' => rfl
      | ok g2 =>
        rw [h2] at h
        dsimp only at h
        exact Except.noConfusion h
  · intro findall doc herr
    unfold constantsWritten
    rw [herr]
    rfl

/-- C2, witness: the amended theorem applied to the failing input of the
counterexample, with a pre-existing output file. -/
theorem c2_abort_leaves_preamble_witness :
    (gen_constants_rs_run (fun _ => some []) (fun _ => some []) (some "prior")).1 =
      some preambleText ∧
    (∀ (findall : List Char → List (List Char × List Char)) (doc : List Char),
      gen_constants_py findall doc = Except.error Err.indexError →
      constantsWritten findall doc = false) :=
  c2_abort_leaves_preamble _ _ (some "prior") Err.indexError rfl
